import Mathlib

/-!
Shallow embedding of the `ComplianceEngine` Algorand smart contract
(`src/smart_contracts/compliance_engine/contract.py`) and proofs of the
spec's claims about it.

Modelling choices:
* Byte strings (`algopy.Bytes`, account addresses, box keys/values) are
  `List Nat`.
* The box store (`op.Box.get` / `op.Box.put`) is an association list from
  keys to values; `boxPut` conses, `List.lookup` finds the latest binding,
  matching overwrite semantics.
* `op.itob` / `op.btoi` are the 8-byte big-endian encoding and its
  big-endian decoding.
* Each ABI method is a function from the contract state to
  `Except Err (St × Nat)`; the AVM's abort-on-failure semantics (every
  write of a failing call is discarded, including the writes made before a
  failing inner transaction) is captured by `run`, which commits the new
  state only on `Except.ok`.
* The inner-transaction asset mint of `certify_batch` is an environment
  oracle: the call carries `mint : Option Nat`, `none` meaning the mint
  fails and `some asa` meaning it succeeds returning asset id `asa`.
* `arc4.emit` appends an event record to the state's event log.
-/

namespace ComplianceEngine

/-- Byte strings: `algopy.Bytes`, addresses, box keys and values. -/
abbrev Bytes := List Nat

/-- The box store: an association list from keys to values. -/
abbrev Store := List (Bytes × Bytes)

/-- `op.Box.get`: returns the stored value and an existence flag
(empty bytes when absent). -/
def boxGet (s : Store) (k : Bytes) : Bytes × Bool :=
  match s.lookup k with
  | some v => (v, true)
  | none => ([], false)

/-- `op.Box.put`: create or overwrite the value stored under `k`. -/
def boxPut (s : Store) (k v : Bytes) : Store :=
  (k, v) :: s

/-- `op.itob`: 8-byte big-endian encoding of a uint64. -/
def itob (n : Nat) : Bytes :=
  [n / 256 ^ 7 % 256, n / 256 ^ 6 % 256, n / 256 ^ 5 % 256, n / 256 ^ 4 % 256,
   n / 256 ^ 3 % 256, n / 256 ^ 2 % 256, n / 256 % 256, n % 256]

/-- `op.btoi`: big-endian byte-string-to-integer decoding. -/
def btoi (bs : Bytes) : Nat :=
  bs.foldl (fun a b => 256 * a + b) 0

/-- Box key for a role assignment: `b"role:" + account`. -/
def keyRole (a : Bytes) : Bytes := [114, 111, 108, 101, 58] ++ a

/-- Box key for a batch state: `b"batch:" + batch_id`. -/
def keyBatch (b : Bytes) : Bytes := [98, 97, 116, 99, 104, 58] ++ b

/-- Box key for a batch's minted asset: `b"asset:" + batch_id`. -/
def keyAsset (b : Bytes) : Bytes := [97, 115, 115, 101, 116, 58] ++ b

/-- Box key for a vendor's batch list: `b"vendor:" + vendor`. -/
def keyVendor (v : Bytes) : Bytes := [118, 101, 110, 100, 111, 114, 58] ++ v

/-- Asset name minted for a certified batch: `b"CERT-" + batch_id`. -/
def assetName (batch_id : Bytes) : Bytes := [67, 69, 82, 84, 45] ++ batch_id

/-- Lowercase hex digit for a nibble, as in Python's `bytes.hex()`. -/
def hexChar (n : Nat) : Char :=
  Char.ofNat (if n < 10 then 48 + n else 87 + n)

/-- Lowercase hex encoding of a byte string, as in `Bytes.hex()`. -/
def bytesHex (bs : Bytes) : String :=
  String.mk (bs.foldr (fun b cs => hexChar (b / 16 % 16) :: hexChar (b % 16) :: cs) [])

/-- An audit event emitted by `arc4.emit`: event name and payload string. -/
structure Event where
  name : String
  payload : String
deriving DecidableEq

/-- Contract state: the box store plus the log of emitted audit events. -/
structure St where
  store : Store
  events : List Event
deriving DecidableEq

/-- The spec's failure taxonomy; each `assert` in the source maps to one
of these. -/
inductive Err where
  | unauthorized
  | invalidArgument
  | alreadyExists
  | notFound
  | invalidTransition
  | mintingFailure
deriving DecidableEq

/-- `assign_role(account, role)`: admin-only role assignment, storing
`itob role` under `b"role:" + account` and emitting an audit event. -/
def assign_role (creator sender account : Bytes) (role : Nat) (st : St) :
    Except Err (St × Nat) :=
  if sender = creator then
    if role = 1 ∨ role = 2 then
      let store1 := boxPut st.store (keyRole account) (itob role)
      let ev : Event :=
        ⟨"assign_role", "assign_role|" ++ bytesHex account ++ "|" ++ bytesHex sender⟩
      Except.ok (⟨store1, st.events ++ [ev]⟩, role)
    else Except.error Err.invalidArgument
  else Except.error Err.unauthorized

/-- `create_batch_v2(batch_id)`: vendor-only batch creation; stores state
`CREATED (0)`, appends the id to the sender's vendor list and emits an
audit event. -/
def create_batch_v2 (creator sender batch_id : Bytes) (st : St) :
    Except Err (St × Nat) :=
  let rg := boxGet st.store (keyRole sender)
  if rg.2 then
    if btoi rg.1 = 1 then
      let sg := boxGet st.store (keyBatch batch_id)
      if sg.2 then
        Except.error Err.alreadyExists
      else
        let s1 := boxPut st.store (keyBatch batch_id) (itob 0)
        let vg := boxGet s1 (keyVendor sender)
        let newVal := if vg.2 then vg.1 ++ [124] ++ batch_id else batch_id
        let s2 := boxPut s1 (keyVendor sender) newVal
        let ev : Event :=
          ⟨"create_batch", "create_batch|" ++ bytesHex batch_id ++ "|" ++ bytesHex sender⟩
        Except.ok (⟨s2, st.events ++ [ev]⟩, 0)
    else Except.error Err.unauthorized
  else Except.error Err.unauthorized

/-- `approve_batch_v2(batch_id)`: inspector-only transition
`CREATED (0) → APPROVED (1)`, emitting an audit event. -/
def approve_batch_v2 (creator sender batch_id : Bytes) (st : St) :
    Except Err (St × Nat) :=
  let rg := boxGet st.store (keyRole sender)
  if rg.2 then
    if btoi rg.1 = 2 then
      let sg := boxGet st.store (keyBatch batch_id)
      if sg.2 then
        if btoi sg.1 = 0 then
          let s1 := boxPut st.store (keyBatch batch_id) (itob 1)
          let ev : Event :=
            ⟨"approve_batch", "approve_batch|" ++ bytesHex batch_id ++ "|" ++ bytesHex sender⟩
          Except.ok (⟨s1, st.events ++ [ev]⟩, 1)
        else Except.error Err.invalidTransition
      else Except.error Err.notFound
    else Except.error Err.unauthorized
  else Except.error Err.unauthorized

/-- `certify_batch(batch_id)`: admin-or-inspector transition
`APPROVED (1) → CERTIFIED (2)`; mints the certification asset (the `mint`
oracle), stores its id under `b"asset:" + batch_id` and emits an audit
event.  A failed mint aborts the whole call. -/
def certify_batch (creator sender batch_id : Bytes) (mint : Option Nat) (st : St) :
    Except Err (St × Nat) :=
  let auth : Except Err Unit :=
    if sender = creator then Except.ok ()
    else
      let rg := boxGet st.store (keyRole sender)
      if rg.2 then
        if btoi rg.1 = 2 then Except.ok () else Except.error Err.unauthorized
      else Except.error Err.unauthorized
  match auth with
  | Except.error e => Except.error e
  | Except.ok _ =>
    let sg := boxGet st.store (keyBatch batch_id)
    if sg.2 then
      if btoi sg.1 = 1 then
        let s1 := boxPut st.store (keyBatch batch_id) (itob 2)
        match mint with
        | none => Except.error Err.mintingFailure
        | some asa =>
          let s2 := boxPut s1 (keyAsset batch_id) (itob asa)
          let ev : Event :=
            ⟨"certify_batch", "certify_batch|" ++ bytesHex batch_id ++ "|" ++ bytesHex sender⟩
          Except.ok (⟨s2, st.events ++ [ev]⟩, 2)
      else Except.error Err.invalidTransition
    else Except.error Err.notFound

/-- `get_batch_status_v2(batch_id)`: read-only; stored state or 99. -/
def get_batch_status_v2 (batch_id : Bytes) (st : St) : Nat :=
  let sg := boxGet st.store (keyBatch batch_id)
  if sg.2 then btoi sg.1 else 99

/-- `get_batch_asset(batch_id)`: read-only; stored asset id or 0. -/
def get_batch_asset (batch_id : Bytes) (st : St) : Nat :=
  let ag := boxGet st.store (keyAsset batch_id)
  if ag.2 then btoi ag.1 else 0

/-- `get_vendor_batches(vendor)`: read-only; the stored pipe-delimited
list, or the empty byte string. -/
def get_vendor_batches (vendor : Bytes) (st : St) : Bytes :=
  let vg := boxGet st.store (keyVendor vendor)
  if vg.2 then vg.1 else []

/-- `get_role(account)`: read-only; 0 for the creator, else the stored
role, else 99. -/
def get_role (creator account : Bytes) (st : St) : Nat :=
  if account = creator then 0
  else
    let rg := boxGet st.store (keyRole account)
    if rg.2 then btoi rg.1 else 99

/-- Legacy stub `create_batch(batch_id: UInt64)`: returns the constant 0. -/
def create_batch (batch_id : Nat) : Nat := 0

/-- Legacy stub `approve_batch(batch_id: UInt64)`: returns the constant 1. -/
def approve_batch (batch_id : Nat) : Nat := 1

/-- Legacy stub `get_batch_status(batch_id: UInt64)`: returns the
constant 1. -/
def get_batch_status (batch_id : Nat) : Nat := 1

/-- One invocation of a state-bearing entry point, tagged with its sender
(`Txn.sender`); `certifyBatch` carries the mint oracle's answer. -/
inductive Call where
  | assignRole (sender account : Bytes) (role : Nat)
  | createBatchV2 (sender batch_id : Bytes)
  | approveBatchV2 (sender batch_id : Bytes)
  | certifyBatch (sender batch_id : Bytes) (mint : Option Nat)
  | createBatchL (sender : Bytes) (batch_id : Nat)
  | approveBatchL (sender : Bytes) (batch_id : Nat)
  | getBatchStatusL (sender : Bytes) (batch_id : Nat)

/-- Dispatch a call against the contract; the legacy stubs touch no state. -/
def exec (creator : Bytes) (st : St) : Call → Except Err (St × Nat)
  | Call.assignRole s a r => assign_role creator s a r st
  | Call.createBatchV2 s b => create_batch_v2 creator s b st
  | Call.approveBatchV2 s b => approve_batch_v2 creator s b st
  | Call.certifyBatch s b m => certify_batch creator s b m st
  | Call.createBatchL _ b => Except.ok (st, create_batch b)
  | Call.approveBatchL _ b => Except.ok (st, approve_batch b)
  | Call.getBatchStatusL _ b => Except.ok (st, get_batch_status b)

/-- The AVM call boundary: a failing call commits nothing — the prior
state is kept and no return value is produced. -/
def run (creator : Bytes) (st : St) (c : Call) : St × Option Nat :=
  match exec creator st c with
  | Except.ok (st2, v) => (st2, some v)
  | Except.error _ => (st, none)

/-- The state of a freshly deployed contract: empty store, empty log. -/
def initSt : St := ⟨[], []⟩

/-- Run a sequence of calls, committing each successful one. -/
def execTrace (creator : Bytes) (st : St) : List Call → St
  | [] => st
  | c :: cs => execTrace creator (run creator st c).1 cs

/-- The raw bytes stored under `b`'s batch-state key, if any. -/
def batchVal (st : St) (b : Bytes) : Option Bytes :=
  st.store.lookup (keyBatch b)

/-- The decoded batch state of `b`, if its key exists. -/
def bstate (st : St) (b : Bytes) : Option Nat :=
  (batchVal st b).map btoi

/-- The raw bytes stored under `b`'s asset key, if any. -/
def assetVal (st : St) (b : Bytes) : Option Bytes :=
  st.store.lookup (keyAsset b)

/-- The raw bytes stored under `a`'s role key, if any. -/
def roleVal (st : St) (a : Bytes) : Option Bytes :=
  st.store.lookup (keyRole a)

/-- The raw bytes stored under `v`'s vendor-list key, if any. -/
def vendorVal (st : St) (v : Bytes) : Option Bytes :=
  st.store.lookup (keyVendor v)

/-- The caller `a` has a stored role decoding to `r`. -/
def roleIs (st : St) (a : Bytes) (r : Nat) : Prop :=
  ∃ bs, roleVal st a = some bs ∧ btoi bs = r

/-- Whether a call result is a success. -/
def isOk : Except Err (St × Nat) → Bool
  | Except.ok _ => true
  | Except.error _ => false

/-- Join a list of batch identifiers with the delimiter byte `|` (124). -/
def joinBar : List Bytes → Bytes
  | [] => []
  | b :: bs => bs.foldl (fun acc x => acc ++ [124] ++ x) b

/-- One vendor-list update step, exactly as `create_batch_v2` performs it:
append with a delimiter when a list exists, else start the list. -/
def appendBar (acc : Option Bytes) (b : Bytes) : Option Bytes :=
  match acc with
  | some e => some (e ++ [124] ++ b)
  | none => some b

/-- The batch identifiers of the successful `create_batch_v2` calls made
by vendor `v` along a trace, in call order. -/
def vendorCreates (creator v : Bytes) : St → List Call → List Bytes
  | _, [] => []
  | st, c :: cs =>
    let rest := vendorCreates creator v (run creator st c).1 cs
    match c, exec creator st c with
    | Call.createBatchV2 s b, Except.ok _ => if s = v then b :: rest else rest
    | _, _ => rest

/-- `true` when no call of the trace is a `create_batch_v2` for batch `b`
that succeeds at its position. -/
def noCreateOf (creator b : Bytes) : St → List Call → Bool
  | _, [] => true
  | st, c :: cs =>
    (match c, exec creator st c with
     | Call.createBatchV2 _ bid, Except.ok _ => !(bid == b)
     | _, _ => true) && noCreateOf creator b (run creator st c).1 cs

instance : DecidableEq (Except Err (St × Nat)) := fun a b =>
  match a, b with
  | Except.ok x, Except.ok y => decidable_of_iff (x = y) (by simp)
  | Except.error x, Except.error y => decidable_of_iff (x = y) (by simp)
  | Except.ok _, Except.error _ => isFalse (fun h => Except.noConfusion h)
  | Except.error _, Except.ok _ => isFalse (fun h => Except.noConfusion h)

instance (st : St) (a : Bytes) (r : Nat) : Decidable (roleIs st a r) :=
  match h : roleVal st a with
  | some bs =>
    if hb : btoi bs = r then
      isTrue ⟨bs, h, hb⟩
    else
      isFalse (fun ⟨bs', h', hb'⟩ => hb (by rw [h] at h'; cases h'; exact hb'))
  | none => isFalse (fun ⟨bs', h', _⟩ => by rw [h] at h'; cases h')

/-! ### Concrete fixtures used by witnesses and counterexamples

A deployment whose creator is `adminA`, with one vendor, one inspector,
one account with no role, and one batch `b5` taken through its whole
lifecycle. -/

def adminA : Bytes := [0]

def vendorA : Bytes := [1]

def inspectorA : Bytes := [2]

def strangerA : Bytes := [3]

def b5 : Bytes := [5]

def b6 : Bytes := [6]

/-- Assign both roles, then create batch `b5`. -/
def setupTrace : List Call :=
  [Call.assignRole adminA vendorA 1, Call.assignRole adminA inspectorA 2,
   Call.createBatchV2 vendorA b5]

/-- `setupTrace`, then the inspector approves `b5`. -/
def approveTrace : List Call :=
  setupTrace ++ [Call.approveBatchV2 inspectorA b5]

/-- `approveTrace`, then the inspector certifies `b5` (mint yields id 7). -/
def certifyTrace : List Call :=
  approveTrace ++ [Call.certifyBatch inspectorA b5 (some 7)]

/-- Only the two role assignments of `setupTrace`. -/
def rolesTrace : List Call :=
  [Call.assignRole adminA vendorA 1, Call.assignRole adminA inspectorA 2]

def stRoles : St := execTrace adminA initSt rolesTrace

/-- One create whose batch identifier contains the delimiter byte 124. -/
def collTrace1 : List Call :=
  [Call.assignRole adminA vendorA 1, Call.createBatchV2 vendorA [97, 124, 98]]

/-- Two creates whose identifiers concatenate to the same delimited list. -/
def collTrace2 : List Call :=
  [Call.assignRole adminA vendorA 1, Call.createBatchV2 vendorA [97],
   Call.createBatchV2 vendorA [98]]

def stCreated : St := execTrace adminA initSt setupTrace

def stApproved : St := execTrace adminA initSt approveTrace

def stCertified : St := execTrace adminA initSt certifyTrace

/-! ### Store and key lemmas -/

theorem lookup_boxPut_self (s : Store) (k v : Bytes) :
    (boxPut s k v).lookup k = some v := by
  simp [boxPut, List.lookup]

theorem lookup_boxPut_ne (s : Store) (k v k' : Bytes) (h : k' ≠ k) :
    (boxPut s k v).lookup k' = s.lookup k' := by
  have hb : (k' == k) = false := beq_eq_false_iff_ne.mpr h
  simp [boxPut, List.lookup, hb]

theorem boxGet_of_some {s : Store} {k v : Bytes} (h : s.lookup k = some v) :
    boxGet s k = (v, true) := by
  simp [boxGet, h]

theorem boxGet_of_none {s : Store} {k : Bytes} (h : s.lookup k = none) :
    boxGet s k = ([], false) := by
  simp [boxGet, h]

theorem keyBatch_ne_keyRole (b a : Bytes) : keyBatch b ≠ keyRole a := by
  simp [keyBatch, keyRole]

theorem keyBatch_ne_keyAsset (b b' : Bytes) : keyBatch b ≠ keyAsset b' := by
  simp [keyBatch, keyAsset]

theorem keyBatch_ne_keyVendor (b v : Bytes) : keyBatch b ≠ keyVendor v := by
  simp [keyBatch, keyVendor]

theorem keyAsset_ne_keyRole (b a : Bytes) : keyAsset b ≠ keyRole a := by
  simp [keyAsset, keyRole]

theorem keyAsset_ne_keyVendor (b v : Bytes) : keyAsset b ≠ keyVendor v := by
  simp [keyAsset, keyVendor]

theorem keyVendor_ne_keyRole (v a : Bytes) : keyVendor v ≠ keyRole a := by
  simp [keyVendor, keyRole]

theorem keyBatch_inj {b b' : Bytes} (h : keyBatch b = keyBatch b') : b = b' := by
  simpa [keyBatch] using h

theorem keyAsset_inj {b b' : Bytes} (h : keyAsset b = keyAsset b') : b = b' := by
  simpa [keyAsset] using h

theorem keyVendor_inj {v v' : Bytes} (h : keyVendor v = keyVendor v') : v = v' := by
  simpa [keyVendor] using h

theorem keyRole_inj {a a' : Bytes} (h : keyRole a = keyRole a') : a = a' := by
  simpa [keyRole] using h

theorem btoi_itob_zero : btoi (itob 0) = 0 := by decide

theorem btoi_itob_one : btoi (itob 1) = 1 := by decide

theorem btoi_itob_two : btoi (itob 2) = 2 := by decide

theorem bstate_some_iff {st : St} {b : Bytes} {n : Nat} :
    bstate st b = some n ↔ ∃ v, batchVal st b = some v ∧ btoi v = n := by
  rw [bstate]
  cases h : batchVal st b <;> simp

theorem bstate_none_iff {st : St} {b : Bytes} :
    bstate st b = none ↔ batchVal st b = none := by
  rw [bstate]
  cases h : batchVal st b <;> simp

theorem run_of_error {cr : Bytes} {st : St} {c : Call} {e : Err}
    (h : exec cr st c = Except.error e) : run cr st c = (st, none) := by
  simp [run, h]

theorem run_of_ok {cr : Bytes} {st : St} {c : Call} {st2 : St} {v : Nat}
    (h : exec cr st c = Except.ok (st2, v)) : run cr st c = (st2, some v) := by
  simp [run, h]

/-! ### View-frame lemmas: how each kind of store write affects each view -/

theorem views_after_assign (s : Store) (ev : List Event) (a' w : Bytes) :
    (∀ b, batchVal ⟨boxPut s (keyRole a') w, ev⟩ b = s.lookup (keyBatch b)) ∧
    (∀ b, assetVal ⟨boxPut s (keyRole a') w, ev⟩ b = s.lookup (keyAsset b)) ∧
    (∀ v, vendorVal ⟨boxPut s (keyRole a') w, ev⟩ v = s.lookup (keyVendor v)) ∧
    (∀ a, roleVal ⟨boxPut s (keyRole a') w, ev⟩ a =
      if a = a' then some w else s.lookup (keyRole a)) := by
  refine ⟨fun b => ?_, fun b => ?_, fun v => ?_, fun a => ?_⟩
  · exact lookup_boxPut_ne _ _ _ _ (keyBatch_ne_keyRole b a')
  · exact lookup_boxPut_ne _ _ _ _ (keyAsset_ne_keyRole b a')
  · exact lookup_boxPut_ne _ _ _ _ (keyVendor_ne_keyRole v a')
  · by_cases ha : a = a'
    · simp [roleVal, ha, lookup_boxPut_self]
    · rw [roleVal, if_neg ha]
      exact lookup_boxPut_ne _ _ _ _ (fun h => ha (keyRole_inj h))

theorem views_after_create (s : Store) (ev : List Event) (b' sv nv : Bytes) :
    (∀ b, batchVal ⟨boxPut (boxPut s (keyBatch b') (itob 0)) (keyVendor sv) nv, ev⟩ b =
      if b = b' then some (itob 0) else s.lookup (keyBatch b)) ∧
    (∀ b, assetVal ⟨boxPut (boxPut s (keyBatch b') (itob 0)) (keyVendor sv) nv, ev⟩ b =
      s.lookup (keyAsset b)) ∧
    (∀ v, vendorVal ⟨boxPut (boxPut s (keyBatch b') (itob 0)) (keyVendor sv) nv, ev⟩ v =
      if v = sv then some nv else s.lookup (keyVendor v)) ∧
    (∀ a, roleVal ⟨boxPut (boxPut s (keyBatch b') (itob 0)) (keyVendor sv) nv, ev⟩ a =
      s.lookup (keyRole a)) := by
  refine ⟨fun b => ?_, fun b => ?_, fun v => ?_, fun a => ?_⟩
  · rw [batchVal,
      lookup_boxPut_ne _ _ _ _ (keyBatch_ne_keyVendor b sv)]
    by_cases hb : b = b'
    · simp [hb, lookup_boxPut_self]
    · rw [if_neg hb]
      exact lookup_boxPut_ne _ _ _ _ (fun h => hb (keyBatch_inj h))
  · rw [assetVal,
      lookup_boxPut_ne _ _ _ _ (keyAsset_ne_keyVendor b sv),
      lookup_boxPut_ne _ _ _ _ (fun h => keyBatch_ne_keyAsset b' b h.symm)]
  · by_cases hv : v = sv
    · simp [vendorVal, hv, lookup_boxPut_self]
    · rw [vendorVal, if_neg hv,
        lookup_boxPut_ne _ _ _ _ (fun h => hv (keyVendor_inj h)),
        lookup_boxPut_ne _ _ _ _ (fun h => keyBatch_ne_keyVendor b' v h.symm)]
  · rw [roleVal,
      lookup_boxPut_ne _ _ _ _ (fun h => keyVendor_ne_keyRole sv a h.symm),
      lookup_boxPut_ne _ _ _ _ (fun h => keyBatch_ne_keyRole b' a h.symm)]

theorem views_after_batchput (s : Store) (ev : List Event) (b' w : Bytes) :
    (∀ b, batchVal ⟨boxPut s (keyBatch b') w, ev⟩ b =
      if b = b' then some w else s.lookup (keyBatch b)) ∧
    (∀ b, assetVal ⟨boxPut s (keyBatch b') w, ev⟩ b = s.lookup (keyAsset b)) ∧
    (∀ v, vendorVal ⟨boxPut s (keyBatch b') w, ev⟩ v = s.lookup (keyVendor v)) ∧
    (∀ a, roleVal ⟨boxPut s (keyBatch b') w, ev⟩ a = s.lookup (keyRole a)) := by
  refine ⟨fun b => ?_, fun b => ?_, fun v => ?_, fun a => ?_⟩
  · by_cases hb : b = b'
    · simp [batchVal, hb, lookup_boxPut_self]
    · rw [batchVal, if_neg hb]
      exact lookup_boxPut_ne _ _ _ _ (fun h => hb (keyBatch_inj h))
  · exact lookup_boxPut_ne _ _ _ _ (fun h => keyBatch_ne_keyAsset b' b h.symm)
  · exact lookup_boxPut_ne _ _ _ _ (fun h => keyBatch_ne_keyVendor b' v h.symm)
  · exact lookup_boxPut_ne _ _ _ _ (fun h => keyBatch_ne_keyRole b' a h.symm)

theorem views_after_certify (s : Store) (ev : List Event) (b' w1 w2 : Bytes) :
    (∀ b, batchVal ⟨boxPut (boxPut s (keyBatch b') w1) (keyAsset b') w2, ev⟩ b =
      if b = b' then some w1 else s.lookup (keyBatch b)) ∧
    (∀ b, assetVal ⟨boxPut (boxPut s (keyBatch b') w1) (keyAsset b') w2, ev⟩ b =
      if b = b' then some w2 else s.lookup (keyAsset b)) ∧
    (∀ v, vendorVal ⟨boxPut (boxPut s (keyBatch b') w1) (keyAsset b') w2, ev⟩ v =
      s.lookup (keyVendor v)) ∧
    (∀ a, roleVal ⟨boxPut (boxPut s (keyBatch b') w1) (keyAsset b') w2, ev⟩ a =
      s.lookup (keyRole a)) := by
  refine ⟨fun b => ?_, fun b => ?_, fun v => ?_, fun a => ?_⟩
  · rw [batchVal,
      lookup_boxPut_ne _ _ _ _ (keyBatch_ne_keyAsset b b')]
    by_cases hb : b = b'
    · simp [hb, lookup_boxPut_self]
    · rw [if_neg hb]
      exact lookup_boxPut_ne _ _ _ _ (fun h => hb (keyBatch_inj h))
  · by_cases hb : b = b'
    · simp [assetVal, hb, lookup_boxPut_self]
    · rw [assetVal, if_neg hb,
        lookup_boxPut_ne _ _ _ _ (fun h => hb (keyAsset_inj h)),
        lookup_boxPut_ne _ _ _ _ (fun h => keyBatch_ne_keyAsset b' b h.symm)]
  · rw [vendorVal,
      lookup_boxPut_ne _ _ _ _ (fun h => keyAsset_ne_keyVendor b' v h.symm),
      lookup_boxPut_ne _ _ _ _ (fun h => keyBatch_ne_keyVendor b' v h.symm)]
  · rw [roleVal,
      lookup_boxPut_ne _ _ _ _ (fun h => keyAsset_ne_keyRole b' a h.symm),
      lookup_boxPut_ne _ _ _ _ (fun h => keyBatch_ne_keyRole b' a h.symm)]

/-! ### Method characterization lemmas

Each lemma is a complete case analysis of one entry point, read off its
definition; every claim proof below goes through these. -/

theorem assign_role_spec (cr s a : Bytes) (r : Nat) (st : St) :
    (s ≠ cr ∧ assign_role cr s a r st = Except.error Err.unauthorized) ∨
    (s = cr ∧ r ≠ 1 ∧ r ≠ 2 ∧
      assign_role cr s a r st = Except.error Err.invalidArgument) ∨
    (s = cr ∧ (r = 1 ∨ r = 2) ∧
      assign_role cr s a r st =
        Except.ok (⟨boxPut st.store (keyRole a) (itob r),
          st.events ++
            [⟨"assign_role", "assign_role|" ++ bytesHex a ++ "|" ++ bytesHex s⟩]⟩, r)) := by
  by_cases h1 : s = cr
  · by_cases h2 : r = 1 ∨ r = 2
    · exact Or.inr (Or.inr ⟨h1, h2, by simp [assign_role, h1, h2]⟩)
    · refine Or.inr (Or.inl ⟨h1, ?_, ?_, by simp [assign_role, h1, h2]⟩) <;> tauto
  · exact Or.inl ⟨h1, by simp [assign_role, h1]⟩

theorem create_batch_v2_spec (cr s b : Bytes) (st : St) :
    (¬ roleIs st s 1 ∧ create_batch_v2 cr s b st = Except.error Err.unauthorized) ∨
    (roleIs st s 1 ∧ (∃ v, batchVal st b = some v) ∧
      create_batch_v2 cr s b st = Except.error Err.alreadyExists) ∨
    (roleIs st s 1 ∧ batchVal st b = none ∧
      create_batch_v2 cr s b st =
        Except.ok (⟨boxPut (boxPut st.store (keyBatch b) (itob 0)) (keyVendor s)
            (match vendorVal st s with
             | some e => e ++ [124] ++ b
             | none => b),
          st.events ++
            [⟨"create_batch", "create_batch|" ++ bytesHex b ++ "|" ++ bytesHex s⟩]⟩, 0)) := by
  rcases hr : st.store.lookup (keyRole s) with _ | bs
  · refine Or.inl ⟨?_, ?_⟩
    · rintro ⟨v, hv, _⟩
      rw [roleVal] at hv
      simp [hr] at hv
    · simp [create_batch_v2, boxGet_of_none hr]
  · by_cases h1 : btoi bs = 1
    · rcases hb : st.store.lookup (keyBatch b) with _ | v
      · refine Or.inr (Or.inr ⟨⟨bs, by rw [roleVal, hr], h1⟩, by rw [batchVal, hb], ?_⟩)
        have hv : (boxPut st.store (keyBatch b) (itob 0)).lookup (keyVendor s) =
            st.store.lookup (keyVendor s) :=
          lookup_boxPut_ne _ _ _ _ (fun h => keyBatch_ne_keyVendor b s h.symm)
        rcases hvv : st.store.lookup (keyVendor s) with _ | e
        · rw [hvv] at hv
          simp [create_batch_v2, boxGet_of_some hr, h1, boxGet_of_none hb,
            boxGet_of_none hv, vendorVal, hvv]
        · rw [hvv] at hv
          simp [create_batch_v2, boxGet_of_some hr, h1, boxGet_of_none hb,
            boxGet_of_some hv, vendorVal, hvv]
      · exact Or.inr (Or.inl ⟨⟨bs, by rw [roleVal, hr], h1⟩, ⟨v, by rw [batchVal, hb]⟩,
          by simp [create_batch_v2, boxGet_of_some hr, h1, boxGet_of_some hb]⟩)
    · refine Or.inl ⟨?_, by simp [create_batch_v2, boxGet_of_some hr, h1]⟩
      rintro ⟨v, hv, hv1⟩
      rw [roleVal] at hv
      rw [hr] at hv
      cases hv
      exact h1 hv1

theorem approve_batch_v2_spec (cr s b : Bytes) (st : St) :
    (¬ roleIs st s 2 ∧ approve_batch_v2 cr s b st = Except.error Err.unauthorized) ∨
    (roleIs st s 2 ∧ batchVal st b = none ∧
      approve_batch_v2 cr s b st = Except.error Err.notFound) ∨
    (roleIs st s 2 ∧ (∃ v, batchVal st b = some v ∧ btoi v ≠ 0) ∧
      approve_batch_v2 cr s b st = Except.error Err.invalidTransition) ∨
    (roleIs st s 2 ∧ (∃ v, batchVal st b = some v ∧ btoi v = 0) ∧
      approve_batch_v2 cr s b st =
        Except.ok (⟨boxPut st.store (keyBatch b) (itob 1),
          st.events ++
            [⟨"approve_batch", "approve_batch|" ++ bytesHex b ++ "|" ++ bytesHex s⟩]⟩, 1)) := by
  rcases hr : st.store.lookup (keyRole s) with _ | bs
  · refine Or.inl ⟨?_, by simp [approve_batch_v2, boxGet_of_none hr]⟩
    rintro ⟨v, hv, _⟩
    rw [roleVal] at hv
    simp [hr] at hv
  · by_cases h2 : btoi bs = 2
    · have hrole : roleIs st s 2 := ⟨bs, by rw [roleVal, hr], h2⟩
      rcases hb : st.store.lookup (keyBatch b) with _ | v
      · exact Or.inr (Or.inl ⟨hrole, by rw [batchVal, hb],
          by simp [approve_batch_v2, boxGet_of_some hr, h2, boxGet_of_none hb]⟩)
      · by_cases h0 : btoi v = 0
        · exact Or.inr (Or.inr (Or.inr ⟨hrole, ⟨v, by rw [batchVal, hb], h0⟩,
            by simp [approve_batch_v2, boxGet_of_some hr, h2, boxGet_of_some hb, h0]⟩))
        · exact Or.inr (Or.inr (Or.inl ⟨hrole, ⟨v, by rw [batchVal, hb], h0⟩,
            by simp [approve_batch_v2, boxGet_of_some hr, h2, boxGet_of_some hb, h0]⟩))
    · refine Or.inl ⟨?_, by simp [approve_batch_v2, boxGet_of_some hr, h2]⟩
      rintro ⟨v, hv, hv2⟩
      rw [roleVal] at hv
      rw [hr] at hv
      cases hv
      exact h2 hv2

theorem certify_batch_spec (cr s b : Bytes) (m : Option Nat) (st : St) :
    (¬ (s = cr ∨ roleIs st s 2) ∧
      certify_batch cr s b m st = Except.error Err.unauthorized) ∨
    ((s = cr ∨ roleIs st s 2) ∧ batchVal st b = none ∧
      certify_batch cr s b m st = Except.error Err.notFound) ∨
    ((s = cr ∨ roleIs st s 2) ∧ (∃ v, batchVal st b = some v ∧ btoi v ≠ 1) ∧
      certify_batch cr s b m st = Except.error Err.invalidTransition) ∨
    ((s = cr ∨ roleIs st s 2) ∧ (∃ v, batchVal st b = some v ∧ btoi v = 1) ∧
      m = none ∧ certify_batch cr s b m st = Except.error Err.mintingFailure) ∨
    ((s = cr ∨ roleIs st s 2) ∧ (∃ v, batchVal st b = some v ∧ btoi v = 1) ∧
      (∃ asa, m = some asa ∧
        certify_batch cr s b m st =
          Except.ok (⟨boxPut (boxPut st.store (keyBatch b) (itob 2)) (keyAsset b) (itob asa),
            st.events ++
              [⟨"certify_batch",
                "certify_batch|" ++ bytesHex b ++ "|" ++ bytesHex s⟩]⟩, 2))) := by
  have hauth : ((s = cr ∨ roleIs st s 2) ∧
      (if s = cr then (Except.ok () : Except Err Unit)
       else
        let rg := boxGet st.store (keyRole s)
        if rg.2 then
          if btoi rg.1 = 2 then Except.ok () else Except.error Err.unauthorized
        else Except.error Err.unauthorized) = Except.ok ()) ∨
      (¬ (s = cr ∨ roleIs st s 2) ∧
      (if s = cr then (Except.ok () : Except Err Unit)
       else
        let rg := boxGet st.store (keyRole s)
        if rg.2 then
          if btoi rg.1 = 2 then Except.ok () else Except.error Err.unauthorized
        else Except.error Err.unauthorized) = Except.error Err.unauthorized) := by
    by_cases hc : s = cr
    · exact Or.inl ⟨Or.inl hc, by simp [hc]⟩
    · rcases hr : st.store.lookup (keyRole s) with _ | bs
      · refine Or.inr ⟨?_, by simp [hc, boxGet_of_none hr]⟩
        rintro (h | ⟨v, hv, _⟩)
        · exact hc h
        · rw [roleVal] at hv
          simp [hr] at hv
      · by_cases h2 : btoi bs = 2
        · exact Or.inl ⟨Or.inr ⟨bs, by rw [roleVal, hr], h2⟩,
            by simp [hc, boxGet_of_some hr, h2]⟩
        · refine Or.inr ⟨?_, by simp [hc, boxGet_of_some hr, h2]⟩
          rintro (h | ⟨v, hv, hv2⟩)
          · exact hc h
          · rw [roleVal] at hv
            rw [hr] at hv
            cases hv
            exact h2 hv2
  rcases hauth with ⟨hok, heq⟩ | ⟨hko, heq⟩
  · rcases hb : st.store.lookup (keyBatch b) with _ | v
    · exact Or.inr (Or.inl ⟨hok, by rw [batchVal, hb],
        by rw [certify_batch, heq]; simp [boxGet_of_none hb]⟩)
    · by_cases h1 : btoi v = 1
      · rcases m with _ | asa
        · exact Or.inr (Or.inr (Or.inr (Or.inl ⟨hok, ⟨v, by rw [batchVal, hb], h1⟩, rfl,
            by rw [certify_batch, heq]; simp [boxGet_of_some hb, h1]⟩)))
        · exact Or.inr (Or.inr (Or.inr (Or.inr ⟨hok, ⟨v, by rw [batchVal, hb], h1⟩,
            asa, rfl, by rw [certify_batch, heq]; simp [boxGet_of_some hb, h1]⟩)))
      · exact Or.inr (Or.inr (Or.inl ⟨hok, ⟨v, by rw [batchVal, hb], h1⟩,
          by rw [certify_batch, heq]; simp [boxGet_of_some hb, h1]⟩))
  · exact Or.inl ⟨hko, by rw [certify_batch, heq]⟩

theorem exec_assign (cr : Bytes) (st : St) (s a : Bytes) (r : Nat) :
    exec cr st (Call.assignRole s a r) = assign_role cr s a r st := rfl

theorem exec_create (cr : Bytes) (st : St) (s b : Bytes) :
    exec cr st (Call.createBatchV2 s b) = create_batch_v2 cr s b st := rfl

theorem exec_approve (cr : Bytes) (st : St) (s b : Bytes) :
    exec cr st (Call.approveBatchV2 s b) = approve_batch_v2 cr s b st := rfl

theorem exec_certify (cr : Bytes) (st : St) (s b : Bytes) (m : Option Nat) :
    exec cr st (Call.certifyBatch s b m) = certify_batch cr s b m st := rfl

/-- Master step analysis: a call either commits nothing, or commits
exactly the writes of one successful method, whose guards held. -/
theorem run_shape (cr : Bytes) (st : St) (c : Call) :
    ((run cr st c).1 = st ∧
      ∀ s b r, c = Call.createBatchV2 s b → exec cr st c ≠ Except.ok r) ∨
    (∃ s a r, c = Call.assignRole s a r ∧ s = cr ∧ (r = 1 ∨ r = 2) ∧ ∃ ev,
      exec cr st c = Except.ok (⟨boxPut st.store (keyRole a) (itob r), ev⟩, r) ∧
      (run cr st c).1 = ⟨boxPut st.store (keyRole a) (itob r), ev⟩) ∨
    (∃ s b, c = Call.createBatchV2 s b ∧ roleIs st s 1 ∧ batchVal st b = none ∧ ∃ nv ev,
      nv = (match vendorVal st s with
            | some e => e ++ [124] ++ b
            | none => b) ∧
      exec cr st c =
        Except.ok (⟨boxPut (boxPut st.store (keyBatch b) (itob 0)) (keyVendor s) nv, ev⟩, 0) ∧
      (run cr st c).1 = ⟨boxPut (boxPut st.store (keyBatch b) (itob 0)) (keyVendor s) nv, ev⟩) ∨
    (∃ s b, c = Call.approveBatchV2 s b ∧ roleIs st s 2 ∧ bstate st b = some 0 ∧ ∃ ev,
      exec cr st c = Except.ok (⟨boxPut st.store (keyBatch b) (itob 1), ev⟩, 1) ∧
      (run cr st c).1 = ⟨boxPut st.store (keyBatch b) (itob 1), ev⟩) ∨
    (∃ s b asa, c = Call.certifyBatch s b (some asa) ∧ (s = cr ∨ roleIs st s 2) ∧
      bstate st b = some 1 ∧ ∃ ev,
      exec cr st c =
        Except.ok
          (⟨boxPut (boxPut st.store (keyBatch b) (itob 2)) (keyAsset b) (itob asa), ev⟩, 2) ∧
      (run cr st c).1 =
        ⟨boxPut (boxPut st.store (keyBatch b) (itob 2)) (keyAsset b) (itob asa), ev⟩) := by
  cases c with
  | assignRole s a r =>
    rcases assign_role_spec cr s a r st with ⟨_, herr⟩ | ⟨_, _, _, herr⟩ | ⟨h1, h2, hok⟩
    · exact Or.inl ⟨by rw [run_of_error ((exec_assign cr st s a r).trans herr)],
        fun _ _ _ h => by cases h⟩
    · exact Or.inl ⟨by rw [run_of_error ((exec_assign cr st s a r).trans herr)],
        fun _ _ _ h => by cases h⟩
    · refine Or.inr (Or.inl ⟨s, a, r, rfl, h1, h2, _, (exec_assign cr st s a r).trans hok, ?_⟩)
      rw [run_of_ok ((exec_assign cr st s a r).trans hok)]
  | createBatchV2 s b =>
    rcases create_batch_v2_spec cr s b st with ⟨_, herr⟩ | ⟨_, _, herr⟩ | ⟨h1, h2, hok⟩
    · exact Or.inl ⟨by rw [run_of_error ((exec_create cr st s b).trans herr)],
        fun s' b' r h => by cases h; rw [(exec_create cr st s b).trans herr]; simp⟩
    · exact Or.inl ⟨by rw [run_of_error ((exec_create cr st s b).trans herr)],
        fun s' b' r h => by cases h; rw [(exec_create cr st s b).trans herr]; simp⟩
    · refine Or.inr (Or.inr (Or.inl ⟨s, b, rfl, h1, h2, _, _, rfl,
        (exec_create cr st s b).trans hok, ?_⟩))
      rw [run_of_ok ((exec_create cr st s b).trans hok)]
  | approveBatchV2 s b =>
    rcases approve_batch_v2_spec cr s b st with
      ⟨_, herr⟩ | ⟨_, _, herr⟩ | ⟨_, _, herr⟩ | ⟨h1, h2, hok⟩
    · exact Or.inl ⟨by rw [run_of_error ((exec_approve cr st s b).trans herr)],
        fun _ _ _ h => by cases h⟩
    · exact Or.inl ⟨by rw [run_of_error ((exec_approve cr st s b).trans herr)],
        fun _ _ _ h => by cases h⟩
    · exact Or.inl ⟨by rw [run_of_error ((exec_approve cr st s b).trans herr)],
        fun _ _ _ h => by cases h⟩
    · refine Or.inr (Or.inr (Or.inr (Or.inl ⟨s, b, rfl, h1, bstate_some_iff.mpr h2, _,
        (exec_approve cr st s b).trans hok, ?_⟩)))
      rw [run_of_ok ((exec_approve cr st s b).trans hok)]
  | certifyBatch s b m =>
    rcases certify_batch_spec cr s b m st with
      ⟨_, herr⟩ | ⟨_, _, herr⟩ | ⟨_, _, herr⟩ | ⟨_, _, _, herr⟩ | ⟨h1, h2, asa, hm, hok⟩
    · exact Or.inl ⟨by rw [run_of_error ((exec_certify cr st s b m).trans herr)],
        fun _ _ _ h => by cases h⟩
    · exact Or.inl ⟨by rw [run_of_error ((exec_certify cr st s b m).trans herr)],
        fun _ _ _ h => by cases h⟩
    · exact Or.inl ⟨by rw [run_of_error ((exec_certify cr st s b m).trans herr)],
        fun _ _ _ h => by cases h⟩
    · exact Or.inl ⟨by rw [run_of_error ((exec_certify cr st s b m).trans herr)],
        fun _ _ _ h => by cases h⟩
    · subst hm
      refine Or.inr (Or.inr (Or.inr (Or.inr ⟨s, b, asa, rfl, h1, bstate_some_iff.mpr h2, _,
        (exec_certify cr st s b (some asa)).trans hok, ?_⟩)))
      rw [run_of_ok ((exec_certify cr st s b (some asa)).trans hok)]
  | createBatchL s b =>
    exact Or.inl ⟨by
      rw [run_of_ok (show exec cr st (Call.createBatchL s b) = Except.ok (st, 0) from rfl)],
      fun _ _ _ h => by cases h⟩
  | approveBatchL s b =>
    exact Or.inl ⟨by
      rw [run_of_ok (show exec cr st (Call.approveBatchL s b) = Except.ok (st, 1) from rfl)],
      fun _ _ _ h => by cases h⟩
  | getBatchStatusL s b =>
    exact Or.inl ⟨by
      rw [run_of_ok (show exec cr st (Call.getBatchStatusL s b) = Except.ok (st, 1) from rfl)],
      fun _ _ _ h => by cases h⟩

end ComplianceEngine

namespace ComplianceEngine

/-! ### Claims -/

/-- C10: the legacy stub entry points `create_batch`, `approve_batch` and
`get_batch_status` perform no authorization check, read and write no
storage, emit no audit event, and return the constants 0, 1 and 1 for
every input, every sender and every state — in particular the legacy
`get_batch_status` reports 1 (Approved) even for batches never created. -/
theorem c10_legacy_stub_entry_points (cr : Bytes) (st : St) (s : Bytes) (batch_id : Nat) :
    exec cr st (Call.createBatchL s batch_id) = Except.ok (st, 0) ∧
    exec cr st (Call.approveBatchL s batch_id) = Except.ok (st, 1) ∧
    exec cr st (Call.getBatchStatusL s batch_id) = Except.ok (st, 1) ∧
    create_batch batch_id = 0 ∧ approve_batch batch_id = 1 ∧ get_batch_status batch_id = 1 :=
  ⟨rfl, rfl, rfl, rfl, rfl, rfl⟩

/-- C8: every failing call commits nothing — the state (store and audit
log) after the call equals the state before, and no return value is
produced; in particular a `certify_batch` whose mint fails does not
commit the 1→2 state write made before the mint, and fails with
`mintingFailure`. -/
theorem c8_call_atomicity_on_failure (cr : Bytes) (st : St) :
    (∀ c e, exec cr st c = Except.error e → run cr st c = (st, none)) ∧
    (∀ s b, (s = cr ∨ roleIs st s 2) → bstate st b = some 1 →
      exec cr st (Call.certifyBatch s b none) = Except.error Err.mintingFailure ∧
      run cr st (Call.certifyBatch s b none) = (st, none) ∧
      bstate (run cr st (Call.certifyBatch s b none)).1 b = some 1 ∧
      (run cr st (Call.certifyBatch s b none)).1.events = st.events) := by
  constructor
  · exact fun c e h => run_of_error h
  · intro s b hauth hb
    rcases certify_batch_spec cr s b none st with
      ⟨hna, _⟩ | ⟨_, hnone, _⟩ | ⟨_, ⟨v, hv, hv1⟩, _⟩ | ⟨_, _, _, herr⟩ | ⟨_, _, asa, hm, _⟩
    · exact absurd hauth hna
    · rcases bstate_some_iff.mp hb with ⟨v, hv, _⟩
      rw [hnone] at hv
      cases hv
    · rcases bstate_some_iff.mp hb with ⟨v', hv', h1'⟩
      rw [hv] at hv'
      cases hv'
      exact absurd h1' hv1
    · have hexec := (exec_certify cr st s b none).trans herr
      refine ⟨hexec, run_of_error hexec, ?_, ?_⟩
      · rw [run_of_error hexec]
        exact hb
      · rw [run_of_error hexec]
    · cases hm

/-- Witness for C8: in the concrete approved state, a certify whose mint
fails aborts with `mintingFailure` and leaves the state untouched. -/
theorem c8_witness :
    exec adminA stApproved (Call.certifyBatch adminA b5 none) =
      Except.error Err.mintingFailure ∧
    run adminA stApproved (Call.certifyBatch adminA b5 none) = (stApproved, none) := by
  have h := (c8_call_atomicity_on_failure adminA stApproved).2 adminA b5 (Or.inl rfl) (by decide)
  exact ⟨h.1, h.2.1⟩

/-- C9: `create_batch_v2` accepts batch identifiers containing the
delimiter byte 124, so two distinct sequences of created identifiers for
the same vendor can yield the identical `get_vendor_batches` string:
creating `"a|b"` collides with creating `"a"` then `"b"`. -/
theorem c9_delimiter_collision :
    isOk (exec adminA (execTrace adminA initSt [Call.assignRole adminA vendorA 1])
        (Call.createBatchV2 vendorA [97, 124, 98])) = true ∧
    vendorCreates adminA vendorA initSt collTrace1 ≠
      vendorCreates adminA vendorA initSt collTrace2 ∧
    get_vendor_batches vendorA (execTrace adminA initSt collTrace1) =
      get_vendor_batches vendorA (execTrace adminA initSt collTrace2) := by
  refine ⟨by decide, by decide, by decide⟩

/-- C4 counterexample: the claim "any second `create_batch` call with the
same `b` fails with `AlreadyExists`, regardless of which caller makes
the second call" is false: after `b5` is created, a caller with no
stored role receives `Unauthorized`, not `AlreadyExists`. -/
theorem c4_counterexample :
    batchVal stCreated b5 ≠ none ∧
    exec adminA stCreated (Call.createBatchV2 strangerA b5) =
      Except.error Err.unauthorized ∧
    Err.unauthorized ≠ Err.alreadyExists := by
  refine ⟨by decide, by decide, by decide⟩

/-- C4 (amended): for every batch `b` already created, any second
`create_batch_v2` call with the same `b` fails and leaves the state
unchanged; the failure is `AlreadyExists` when the caller passes the
Vendor role check, and `Unauthorized` otherwise (the role check runs
first). -/
theorem c4_second_create_rejected (cr s b : Bytes) (st : St)
    (h : batchVal st b ≠ none) :
    (∃ e, exec cr st (Call.createBatchV2 s b) = Except.error e) ∧
    run cr st (Call.createBatchV2 s b) = (st, none) ∧
    (roleIs st s 1 → exec cr st (Call.createBatchV2 s b) = Except.error Err.alreadyExists) ∧
    (¬ roleIs st s 1 → exec cr st (Call.createBatchV2 s b) = Except.error Err.unauthorized) := by
  rcases create_batch_v2_spec cr s b st with ⟨hna, herr⟩ | ⟨hr, _, herr⟩ | ⟨_, hnone, _⟩
  · have hexec := (exec_create cr st s b).trans herr
    exact ⟨⟨_, hexec⟩, run_of_error hexec, fun hro => absurd hro hna, fun _ => hexec⟩
  · have hexec := (exec_create cr st s b).trans herr
    exact ⟨⟨_, hexec⟩, run_of_error hexec, fun _ => hexec, fun hn => absurd hr hn⟩
  · exact absurd hnone h

/-- Witness for C4's amended theorem: the vendor's own second create of
`b5` fails `AlreadyExists` and commits nothing. -/
theorem c4_witness :
    exec adminA stCreated (Call.createBatchV2 vendorA b5) = Except.error Err.alreadyExists ∧
    run adminA stCreated (Call.createBatchV2 vendorA b5) = (stCreated, none) := by
  have h := c4_second_create_rejected adminA vendorA b5 stCreated (by decide)
  exact ⟨h.2.2.1 (by decide), h.2.1⟩


/-- C2: for every state, `create_batch_v2` succeeds only when the caller's
stored role decodes to Vendor (1), `approve_batch_v2` only when it
decodes to Inspector (2), `certify_batch` only when the caller is the
creator or has stored role Inspector, and `assign_role` only when the
caller is the creator; a caller failing the role gate always receives
`Unauthorized` and no state change. -/
theorem c2_role_gate_law (cr : Bytes) (st : St) :
    (∀ s b r, exec cr st (Call.createBatchV2 s b) = Except.ok r → roleIs st s 1) ∧
    (∀ s b r, exec cr st (Call.approveBatchV2 s b) = Except.ok r → roleIs st s 2) ∧
    (∀ s b m r, exec cr st (Call.certifyBatch s b m) = Except.ok r →
      s = cr ∨ roleIs st s 2) ∧
    (∀ s a ro r, exec cr st (Call.assignRole s a ro) = Except.ok r → s = cr) ∧
    (∀ s b, ¬ roleIs st s 1 →
      exec cr st (Call.createBatchV2 s b) = Except.error Err.unauthorized ∧
      run cr st (Call.createBatchV2 s b) = (st, none)) ∧
    (∀ s b, ¬ roleIs st s 2 →
      exec cr st (Call.approveBatchV2 s b) = Except.error Err.unauthorized ∧
      run cr st (Call.approveBatchV2 s b) = (st, none)) ∧
    (∀ s b m, s ≠ cr → ¬ roleIs st s 2 →
      exec cr st (Call.certifyBatch s b m) = Except.error Err.unauthorized ∧
      run cr st (Call.certifyBatch s b m) = (st, none)) ∧
    (∀ s a ro, s ≠ cr →
      exec cr st (Call.assignRole s a ro) = Except.error Err.unauthorized ∧
      run cr st (Call.assignRole s a ro) = (st, none)) := by
  refine ⟨?_, ?_, ?_, ?_, ?_, ?_, ?_, ?_⟩
  · intro s b r h
    rcases create_batch_v2_spec cr s b st with ⟨_, herr⟩ | ⟨hr, _, _⟩ | ⟨hr, _, _⟩
    · exact Except.noConfusion (((exec_create cr st s b).trans herr).symm.trans h)
    · exact hr
    · exact hr
  · intro s b r h
    rcases approve_batch_v2_spec cr s b st with
      ⟨_, herr⟩ | ⟨hr, _, _⟩ | ⟨hr, _, _⟩ | ⟨hr, _, _⟩
    · exact Except.noConfusion (((exec_approve cr st s b).trans herr).symm.trans h)
    · exact hr
    · exact hr
    · exact hr
  · intro s b m r h
    rcases certify_batch_spec cr s b m st with
      ⟨_, herr⟩ | ⟨hr, _, _⟩ | ⟨hr, _, _⟩ | ⟨hr, _, _, _⟩ | ⟨hr, _, _⟩
    · exact Except.noConfusion (((exec_certify cr st s b m).trans herr).symm.trans h)
    · exact hr
    · exact hr
    · exact hr
    · exact hr
  · intro s a ro r h
    rcases assign_role_spec cr s a ro st with ⟨_, herr⟩ | ⟨hc, _, _, _⟩ | ⟨hc, _, _⟩
    · exact Except.noConfusion (((exec_assign cr st s a ro).trans herr).symm.trans h)
    · exact hc
    · exact hc
  · intro s b hn
    rcases create_batch_v2_spec cr s b st with ⟨_, herr⟩ | ⟨hr, _, _⟩ | ⟨hr, _, _⟩
    · have hexec := (exec_create cr st s b).trans herr
      exact ⟨hexec, run_of_error hexec⟩
    · exact absurd hr hn
    · exact absurd hr hn
  · intro s b hn
    rcases approve_batch_v2_spec cr s b st with
      ⟨_, herr⟩ | ⟨hr, _, _⟩ | ⟨hr, _, _⟩ | ⟨hr, _, _⟩
    · have hexec := (exec_approve cr st s b).trans herr
      exact ⟨hexec, run_of_error hexec⟩
    · exact absurd hr hn
    · exact absurd hr hn
    · exact absurd hr hn
  · intro s b m hs hn
    rcases certify_batch_spec cr s b m st with
      ⟨_, herr⟩ | ⟨hr, _, _⟩ | ⟨hr, _, _⟩ | ⟨hr, _, _, _⟩ | ⟨hr, _, _⟩
    · have hexec := (exec_certify cr st s b m).trans herr
      exact ⟨hexec, run_of_error hexec⟩
    all_goals rcases hr with hc | hro
    all_goals first | exact absurd hc hs | exact absurd hro hn
  · intro s a ro hs
    rcases assign_role_spec cr s a ro st with ⟨_, herr⟩ | ⟨hc, _, _, _⟩ | ⟨hc, _, _⟩
    · have hexec := (exec_assign cr st s a ro).trans herr
      exact ⟨hexec, run_of_error hexec⟩
    · exact absurd hc hs
    · exact absurd hc hs

/-- Witness for C2: the vendor's successful create shows the positive
gate is satisfiable, and an account with no stored role is rejected with
`Unauthorized` and no state change. -/
theorem c2_witness :
    roleIs stRoles vendorA 1 ∧
    exec adminA stCreated (Call.createBatchV2 strangerA b6) =
      Except.error Err.unauthorized ∧
    run adminA stCreated (Call.createBatchV2 strangerA b6) = (stCreated, none) := by
  refine ⟨(c2_role_gate_law adminA stRoles).1 vendorA b5 (stCreated, 0) (by decide), ?_⟩
  exact (c2_role_gate_law adminA stCreated).2.2.2.2.1 strangerA b6 (by decide)

/-- One step preserves the role-store invariant: only `assign_role`
writes a role entry, and it writes `itob 1` or `itob 2`. -/
theorem roleVal_step (cr : Bytes) (st : St) (c : Call)
    (h : ∀ a bs, roleVal st a = some bs → bs = itob 1 ∨ bs = itob 2) :
    ∀ a bs, roleVal (run cr st c).1 a = some bs → bs = itob 1 ∨ bs = itob 2 := by
  rcases run_shape cr st c with ⟨hst, _⟩ | ⟨s, a', r, _, _, hr, ev, _, hrun⟩ |
    ⟨s, b, _, _, _, nv, ev, _, _, hrun⟩ | ⟨s, b, _, _, _, ev, _, hrun⟩ |
    ⟨s, b, asa, _, _, _, ev, _, hrun⟩
  · rw [hst]
    exact h
  · intro a bs hv
    rw [hrun, (views_after_assign st.store ev a' (itob r)).2.2.2 a] at hv
    by_cases ha : a = a'
    · rw [if_pos ha] at hv
      cases hv
      rcases hr with h1 | h2
      · exact Or.inl (by rw [h1])
      · exact Or.inr (by rw [h2])
    · rw [if_neg ha] at hv
      exact h a bs hv
  · intro a bs hv
    rw [hrun, (views_after_create st.store ev b s nv).2.2.2 a] at hv
    exact h a bs hv
  · intro a bs hv
    rw [hrun, (views_after_batchput st.store ev b (itob 1)).2.2.2 a] at hv
    exact h a bs hv
  · intro a bs hv
    rw [hrun,
      (views_after_certify st.store ev b (itob 2) (itob asa)).2.2.2 a] at hv
    exact h a bs hv


/-- Along any trace, every stored role value is `itob 1` or `itob 2`. -/
theorem roleVal_trace (cr : Bytes) : ∀ (cs : List Call) (st : St),
    (∀ a bs, roleVal st a = some bs → bs = itob 1 ∨ bs = itob 2) →
    ∀ a bs, roleVal (execTrace cr st cs) a = some bs → bs = itob 1 ∨ bs = itob 2 := by
  intro cs
  induction cs with
  | nil => exact fun st h => h
  | cons c cs ih => exact fun st h => ih (run cr st c).1 (roleVal_step cr st c h)

/-- C7: `assign_role` fails `Unauthorized` for every non-creator caller;
for the creator it fails `InvalidArgument` when the role is neither 1
nor 2, and otherwise stores exactly `itob role` for the account, changes
no other role entry, and returns the role; consequently, in every state
reachable from deployment, every stored role value is `itob 1` or
`itob 2` — the codes 0 and 99 are never stored. -/
theorem c7_assign_role_behaviour (cr : Bytes) :
    (∀ s a r st, s ≠ cr → assign_role cr s a r st = Except.error Err.unauthorized) ∧
    (∀ a r st, r ≠ 1 → r ≠ 2 →
      assign_role cr cr a r st = Except.error Err.invalidArgument) ∧
    (∀ a r st, r = 1 ∨ r = 2 → ∃ st2, assign_role cr cr a r st = Except.ok (st2, r) ∧
      roleVal st2 a = some (itob r) ∧ ∀ a', a' ≠ a → roleVal st2 a' = roleVal st a') ∧
    (∀ cs a bs, roleVal (execTrace cr initSt cs) a = some bs →
      bs = itob 1 ∨ bs = itob 2) := by
  refine ⟨?_, ?_, ?_, ?_⟩
  · intro s a r st hs
    rcases assign_role_spec cr s a r st with ⟨_, herr⟩ | ⟨hc, _, _, _⟩ | ⟨hc, _, _⟩
    · exact herr
    · exact absurd hc hs
    · exact absurd hc hs
  · intro a r st h1 h2
    rcases assign_role_spec cr cr a r st with ⟨hc, _⟩ | ⟨_, _, _, herr⟩ | ⟨_, hr, _⟩
    · exact absurd rfl hc
    · exact herr
    · rcases hr with h | h
      · exact absurd h h1
      · exact absurd h h2
  · intro a r st hr
    rcases assign_role_spec cr cr a r st with ⟨hc, _⟩ | ⟨_, h1, h2, _⟩ | ⟨_, _, hok⟩
    · exact absurd rfl hc
    · rcases hr with h | h
      · exact absurd h h1
      · exact absurd h h2
    · refine ⟨_, hok, ?_, ?_⟩
      · rw [(views_after_assign st.store _ a (itob r)).2.2.2 a, if_pos rfl]
      · intro a' ha'
        rw [(views_after_assign st.store _ a (itob r)).2.2.2 a', if_neg ha']
        rfl
  · intro cs a bs h
    refine roleVal_trace cr cs initSt ?_ a bs h
    intro a' bs' h'
    exact Option.noConfusion (show (none : Option Bytes) = some bs' from h')

/-- Witness for C7: a concrete assignment by the creator stores the
Inspector role, a stranger is rejected, an out-of-range role is
rejected, and the reachability invariant holds in `stCertified`. -/
theorem c7_witness :
    assign_role adminA strangerA vendorA 1 initSt = Except.error Err.unauthorized ∧
    assign_role adminA adminA vendorA 5 initSt = Except.error Err.invalidArgument ∧
    (∃ st2, assign_role adminA adminA vendorA 1 initSt = Except.ok (st2, 1) ∧
      roleVal st2 vendorA = some (itob 1) ∧
      ∀ a', a' ≠ vendorA → roleVal st2 a' = roleVal initSt a') ∧
    (itob 2 = itob 1 ∨ itob 2 = itob 2) := by
  refine ⟨?_, ?_, ?_, ?_⟩
  · exact (c7_assign_role_behaviour adminA).1 strangerA vendorA 1 initSt (by decide)
  · exact (c7_assign_role_behaviour adminA).2.1 vendorA 5 initSt (by decide) (by decide)
  · exact (c7_assign_role_behaviour adminA).2.2.1 vendorA 1 initSt (Or.inl rfl)
  · exact (c7_assign_role_behaviour adminA).2.2.2 certifyTrace inspectorA (itob 2) (by decide)


/-- C1: every call moves the batch-state entry of `b` at most one step
along `none → 0 → 1 → 2`, never skipping, reversing or deleting, and the
`none → 0` creation step happens only on a `create_batch_v2` call for
`b` itself (state 0, key previously absent); `approve_batch_v2` succeeds
only from stored state 0, and `certify_batch` only from stored state 1. -/
theorem c1_monotonic_transition_law (cr : Bytes) (st : St) (c : Call) (b : Bytes) :
    (bstate (run cr st c).1 b = bstate st b ∨
     (bstate st b = none ∧ bstate (run cr st c).1 b = some 0 ∧
       ∃ s, c = Call.createBatchV2 s b) ∨
     (bstate st b = some 0 ∧ bstate (run cr st c).1 b = some 1) ∨
     (bstate st b = some 1 ∧ bstate (run cr st c).1 b = some 2)) ∧
    (∀ s r, exec cr st (Call.approveBatchV2 s b) = Except.ok r → bstate st b = some 0) ∧
    (∀ s m r, exec cr st (Call.certifyBatch s b m) = Except.ok r → bstate st b = some 1) ∧
    (∀ s r, exec cr st (Call.createBatchV2 s b) = Except.ok r →
      bstate st b = none ∧ bstate (run cr st (Call.createBatchV2 s b)).1 b = some 0) := by
  refine ⟨?_, ?_, ?_, ?_⟩
  · rcases run_shape cr st c with ⟨hst, _⟩ | ⟨s, a', r, _, _, _, ev, _, hrun⟩ |
      ⟨s, b', hc, _, hnone, nv, ev, _, _, hrun⟩ | ⟨s, b', _, _, h0, ev, _, hrun⟩ |
      ⟨s, b', asa, _, _, h1, ev, _, hrun⟩
    · rw [hst]
      exact Or.inl rfl
    · left
      rw [hrun]
      simp only [bstate]
      rw [(views_after_assign st.store ev a' (itob r)).1 b]
      rfl
    · by_cases hb : b = b'
      · subst hb
        refine Or.inr (Or.inl ⟨bstate_none_iff.mpr hnone, ?_, s, hc⟩)
        rw [hrun]
        simp only [bstate]
        rw [(views_after_create st.store ev b s nv).1 b, if_pos rfl]
        simp [btoi_itob_zero]
      · left
        rw [hrun]
        simp only [bstate]
        rw [(views_after_create st.store ev b' s nv).1 b, if_neg hb]
        rfl
    · by_cases hb : b = b'
      · subst hb
        refine Or.inr (Or.inr (Or.inl ⟨h0, ?_⟩))
        rw [hrun]
        simp only [bstate]
        rw [(views_after_batchput st.store ev b (itob 1)).1 b, if_pos rfl]
        simp [btoi_itob_one]
      · left
        rw [hrun]
        simp only [bstate]
        rw [(views_after_batchput st.store ev b' (itob 1)).1 b, if_neg hb]
        rfl
    · by_cases hb : b = b'
      · subst hb
        refine Or.inr (Or.inr (Or.inr ⟨h1, ?_⟩))
        rw [hrun]
        simp only [bstate]
        rw [(views_after_certify st.store ev b (itob 2) (itob asa)).1 b, if_pos rfl]
        simp [btoi_itob_two]
      · left
        rw [hrun]
        simp only [bstate]
        rw [(views_after_certify st.store ev b' (itob 2) (itob asa)).1 b, if_neg hb]
        rfl
  · intro s r h
    rcases approve_batch_v2_spec cr s b st with
      ⟨_, herr⟩ | ⟨_, _, herr⟩ | ⟨_, _, herr⟩ | ⟨_, h0, _⟩
    · exact Except.noConfusion (((exec_approve cr st s b).trans herr).symm.trans h)
    · exact Except.noConfusion (((exec_approve cr st s b).trans herr).symm.trans h)
    · exact Except.noConfusion (((exec_approve cr st s b).trans herr).symm.trans h)
    · exact bstate_some_iff.mpr h0
  · intro s m r h
    rcases certify_batch_spec cr s b m st with
      ⟨_, herr⟩ | ⟨_, _, herr⟩ | ⟨_, _, herr⟩ | ⟨_, _, _, herr⟩ | ⟨_, h1, _⟩
    · exact Except.noConfusion (((exec_certify cr st s b m).trans herr).symm.trans h)
    · exact Except.noConfusion (((exec_certify cr st s b m).trans herr).symm.trans h)
    · exact Except.noConfusion (((exec_certify cr st s b m).trans herr).symm.trans h)
    · exact Except.noConfusion (((exec_certify cr st s b m).trans herr).symm.trans h)
    · exact bstate_some_iff.mpr h1
  · intro s r h
    rcases create_batch_v2_spec cr s b st with ⟨_, herr⟩ | ⟨_, _, herr⟩ | ⟨_, hnone, hok⟩
    · exact Except.noConfusion (((exec_create cr st s b).trans herr).symm.trans h)
    · exact Except.noConfusion (((exec_create cr st s b).trans herr).symm.trans h)
    · refine ⟨bstate_none_iff.mpr hnone, ?_⟩
      rw [run_of_ok ((exec_create cr st s b).trans hok)]
      simp only [bstate]
      rw [(views_after_create st.store _ b s _).1 b, if_pos rfl]
      simp [btoi_itob_zero]

/-- Witness for C1: the concrete lifecycle discharges the success
preconditions — `b5` is absent before its create, in state 0 before its
approve, and in state 1 before its certify. -/
theorem c1_witness :
    bstate stCreated b5 = some 0 ∧ bstate stApproved b5 = some 1 := by
  constructor
  · exact ((c1_monotonic_transition_law adminA stRoles (Call.getBatchStatusL adminA 0) b5).2.2.2
      vendorA (stCreated, 0) (by decide)).2
  · exact (c1_monotonic_transition_law adminA stApproved (Call.getBatchStatusL adminA 0) b5).2.2.1
      inspectorA (some 7) (stCertified, 2) (by decide)


/-- One step preserves the invariant that an asset entry exists only for
a certified batch. -/
theorem asset_inv_step (cr : Bytes) (st : St) (c : Call)
    (h : ∀ b, assetVal st b ≠ none → bstate st b = some 2) :
    ∀ b, assetVal (run cr st c).1 b ≠ none → bstate (run cr st c).1 b = some 2 := by
  rcases run_shape cr st c with ⟨hst, _⟩ | ⟨s, a', r, _, _, _, ev, _, hrun⟩ |
    ⟨s, b', _, _, hnone, nv, ev, _, _, hrun⟩ | ⟨s, b', _, _, h0, ev, _, hrun⟩ |
    ⟨s, b', asa, _, _, h1, ev, _, hrun⟩
  · rw [hst]
    exact h
  · intro b hb
    rw [hrun] at hb
    rw [(views_after_assign st.store ev a' (itob r)).2.1 b] at hb
    have h2 := h b hb
    rw [hrun]
    simp only [bstate]
    rw [(views_after_assign st.store ev a' (itob r)).1 b]
    exact h2
  · intro b hb
    rw [hrun] at hb
    rw [(views_after_create st.store ev b' s nv).2.1 b] at hb
    have h2 := h b hb
    by_cases hbb : b = b'
    · subst hbb
      rw [bstate_none_iff.mpr hnone] at h2
      exact Option.noConfusion h2
    · rw [hrun]
      simp only [bstate]
      rw [(views_after_create st.store ev b' s nv).1 b, if_neg hbb]
      exact h2
  · intro b hb
    rw [hrun] at hb
    rw [(views_after_batchput st.store ev b' (itob 1)).2.1 b] at hb
    have h2 := h b hb
    by_cases hbb : b = b'
    · subst hbb
      exact absurd (h0.symm.trans h2) (by simp)
    · rw [hrun]
      simp only [bstate]
      rw [(views_after_batchput st.store ev b' (itob 1)).1 b, if_neg hbb]
      exact h2
  · intro b hb
    by_cases hbb : b = b'
    · subst hbb
      rw [hrun]
      simp only [bstate]
      rw [(views_after_certify st.store ev b (itob 2) (itob asa)).1 b, if_pos rfl]
      simp [btoi_itob_two]
    · rw [hrun] at hb
      rw [(views_after_certify st.store ev b' (itob 2) (itob asa)).2.1 b, if_neg hbb] at hb
      have h2 := h b hb
      rw [hrun]
      simp only [bstate]
      rw [(views_after_certify st.store ev b' (itob 2) (itob asa)).1 b, if_neg hbb]
      exact h2

/-- Along any trace, an asset entry exists only for a certified batch. -/
theorem asset_inv_trace (cr : Bytes) : ∀ (cs : List Call) (st : St),
    (∀ b, assetVal st b ≠ none → bstate st b = some 2) →
    ∀ b, assetVal (execTrace cr st cs) b ≠ none → bstate (execTrace cr st cs) b = some 2 := by
  intro cs
  induction cs with
  | nil => exact fun st h => h
  | cons c cs ih => exact fun st h => ih (run cr st c).1 (asset_inv_step cr st c h)

/-- One step changes an asset entry only on a successful certify of that
batch, and only from absent to the fresh asset id, with the 1→2 state
transition committed in the same step. -/
theorem asset_frame_step (cr : Bytes) (st : St) (c : Call) (b : Bytes)
    (hinv : ∀ b, assetVal st b ≠ none → bstate st b = some 2) :
    assetVal (run cr st c).1 b = assetVal st b ∨
    (assetVal st b = none ∧ bstate st b = some 1 ∧ bstate (run cr st c).1 b = some 2 ∧
      ∃ s asa, c = Call.certifyBatch s b (some asa) ∧
        assetVal (run cr st c).1 b = some (itob asa)) := by
  rcases run_shape cr st c with ⟨hst, _⟩ | ⟨s, a', r, _, _, _, ev, _, hrun⟩ |
    ⟨s, b', _, _, _, nv, ev, _, _, hrun⟩ | ⟨s, b', _, _, _, ev, _, hrun⟩ |
    ⟨s, b', asa, hc, _, h1, ev, _, hrun⟩
  · left
    rw [hst]
  · left
    rw [hrun]
    rw [(views_after_assign st.store ev a' (itob r)).2.1 b]
    rfl
  · left
    rw [hrun]
    rw [(views_after_create st.store ev b' s nv).2.1 b]
    rfl
  · left
    rw [hrun]
    rw [(views_after_batchput st.store ev b' (itob 1)).2.1 b]
    rfl
  · by_cases hbb : b = b'
    · subst hbb
      right
      have hnone : assetVal st b = none := by
        by_contra hne
        exact absurd (h1.symm.trans (hinv b hne)) (by simp)
      refine ⟨hnone, h1, ?_, s, asa, hc, ?_⟩
      · rw [hrun]
        simp only [bstate]
        rw [(views_after_certify st.store ev b (itob 2) (itob asa)).1 b, if_pos rfl]
        simp [btoi_itob_two]
      · rw [hrun]
        rw [(views_after_certify st.store ev b (itob 2) (itob asa)).2.1 b, if_pos rfl]
    · left
      rw [hrun]
      rw [(views_after_certify st.store ev b' (itob 2) (itob asa)).2.1 b, if_neg hbb]
      rfl

/-- C3: in every state reachable from deployment, an asset entry for `b`
exists only when `b` is certified (state 2); and any single call either
leaves `b`'s asset entry unchanged or — only a successful
`certify_batch` of `b` itself — writes it for the first time (it was
absent), storing the freshly minted id while moving `b` from state 1 to
state 2.  Hence the token id is written exactly once and never mutated. -/
theorem c3_certification_uniqueness (cr : Bytes) (cs : List Call) (b : Bytes) :
    (assetVal (execTrace cr initSt cs) b ≠ none →
      bstate (execTrace cr initSt cs) b = some 2) ∧
    (∀ c, assetVal (run cr (execTrace cr initSt cs) c).1 b =
        assetVal (execTrace cr initSt cs) b ∨
      (assetVal (execTrace cr initSt cs) b = none ∧
        bstate (execTrace cr initSt cs) b = some 1 ∧
        bstate (run cr (execTrace cr initSt cs) c).1 b = some 2 ∧
        ∃ s asa, c = Call.certifyBatch s b (some asa) ∧
          assetVal (run cr (execTrace cr initSt cs) c).1 b = some (itob asa))) := by
  have hinit : ∀ b, assetVal initSt b ≠ none → bstate initSt b = some 2 := by
    intro b hb
    exact absurd (rfl : assetVal initSt b = (none : Option Bytes)) hb
  have hinv := asset_inv_trace cr cs initSt hinit
  exact ⟨hinv b, fun c => asset_frame_step cr (execTrace cr initSt cs) c b hinv⟩

/-- Witness for C3: in the concrete certified state the asset entry for
`b5` exists, so the reachability invariant yields state 2. -/
theorem c3_witness : bstate stCertified b5 = some 2 :=
  (c3_certification_uniqueness adminA certifyTrace b5).1 (by decide)


/-- Unfold one step of `noCreateOf`. -/
theorem noCreateOf_cons (cr b : Bytes) (st : St) (c : Call) (cs : List Call) :
    noCreateOf cr b st (c :: cs) =
      ((match c, exec cr st c with
        | Call.createBatchV2 _ bid, Except.ok _ => !(bid == b)
        | _, _ => true) && noCreateOf cr b (run cr st c).1 cs) := rfl

/-- Auxiliary for C5: if `b`'s batch and asset entries are absent and the
trace contains no successful create of `b`, both stay absent. -/
theorem no_create_preserves_absent (cr b : Bytes) : ∀ (cs : List Call) (st : St),
    batchVal st b = none → assetVal st b = none → noCreateOf cr b st cs = true →
    batchVal (execTrace cr st cs) b = none ∧ assetVal (execTrace cr st cs) b = none := by
  intro cs
  induction cs with
  | nil => exact fun st h1 h2 _ => ⟨h1, h2⟩
  | cons c cs ih =>
    intro st h1 h2 hnc
    rw [noCreateOf_cons, Bool.and_eq_true] at hnc
    have hnc' := hnc
    have hpres : batchVal (run cr st c).1 b = none ∧ assetVal (run cr st c).1 b = none := by
      rcases run_shape cr st c with ⟨hst, _⟩ | ⟨s, a', r, _, _, _, ev, _, hrun⟩ |
        ⟨s, b', hc, _, _, nv, ev, _, hexec, hrun⟩ | ⟨s, b', _, _, h0, ev, _, hrun⟩ |
        ⟨s, b', asa, _, _, hb1, ev, _, hrun⟩
      · rw [hst]
        exact ⟨h1, h2⟩
      · rw [hrun]
        constructor
        · rw [(views_after_assign st.store ev a' (itob r)).1 b]
          exact h1
        · rw [(views_after_assign st.store ev a' (itob r)).2.1 b]
          exact h2
      · have hne : b' ≠ b := by
          have hflag := hnc'.1
          rw [hc] at hflag
          rw [hc] at hexec
          rw [hexec] at hflag
          simpa using hflag
        rw [hrun]
        constructor
        · rw [(views_after_create st.store ev b' s nv).1 b, if_neg (fun h => hne h.symm)]
          exact h1
        · rw [(views_after_create st.store ev b' s nv).2.1 b]
          exact h2
      · have hne : b' ≠ b := by
          intro he
          subst he
          exact Option.noConfusion ((bstate_none_iff.mpr h1).symm.trans h0)
        rw [hrun]
        constructor
        · rw [(views_after_batchput st.store ev b' (itob 1)).1 b,
            if_neg (fun h => hne h.symm)]
          exact h1
        · rw [(views_after_batchput st.store ev b' (itob 1)).2.1 b]
          exact h2
      · have hne : b' ≠ b := by
          intro he
          subst he
          exact Option.noConfusion ((bstate_none_iff.mpr h1).symm.trans hb1)
        rw [hrun]
        constructor
        · rw [(views_after_certify st.store ev b' (itob 2) (itob asa)).1 b,
            if_neg (fun h => hne h.symm)]
          exact h1
        · rw [(views_after_certify st.store ev b' (itob 2) (itob asa)).2.1 b,
            if_neg (fun h => hne h.symm)]
          exact h2
    exact ih (run cr st c).1 hpres.1 hpres.2 hnc'.2

/-- C5: for every batch identifier `b` never passed to a successful
`create_batch_v2` along a trace from deployment, `get_batch_status_v2`
reports the sentinel 99 and `get_batch_asset` reports 0; both are pure
reads of the state and never fail. -/
theorem c5_fresh_batch_sentinels (cr b : Bytes) (cs : List Call)
    (h : noCreateOf cr b initSt cs = true) :
    get_batch_status_v2 b (execTrace cr initSt cs) = 99 ∧
    get_batch_asset b (execTrace cr initSt cs) = 0 := by
  obtain ⟨h1, h2⟩ := no_create_preserves_absent cr b cs initSt rfl rfl h
  constructor
  · simp [get_batch_status_v2, boxGet_of_none h1]
  · simp [get_batch_asset, boxGet_of_none h2]

/-- Witness for C5: `b6` is never created along `setupTrace`, so its
status reads 99 and its asset reads 0. -/
theorem c5_witness :
    get_batch_status_v2 b6 (execTrace adminA initSt setupTrace) = 99 ∧
    get_batch_asset b6 (execTrace adminA initSt setupTrace) = 0 :=
  c5_fresh_batch_sentinels adminA b6 setupTrace (by decide)


theorem foldl_appendBar_some (ids : List Bytes) : ∀ e : Bytes,
    List.foldl appendBar (some e) ids =
      some (List.foldl (fun acc x => acc ++ [124] ++ x) e ids) := by
  induction ids with
  | nil => exact fun e => rfl
  | cons x xs ih =>
    intro e
    simp only [List.foldl, appendBar]
    exact ih (e ++ [124] ++ x)

theorem foldl_appendBar_cons (x : Bytes) (xs : List Bytes) :
    List.foldl appendBar none (x :: xs) = some (joinBar (x :: xs)) := by
  simp only [List.foldl, appendBar, joinBar]
  exact foldl_appendBar_some xs x

/-- A call that is not a successful `create_batch_v2` contributes nothing
to `vendorCreates`. -/
theorem vendorCreates_cons_of_no_create (cr v : Bytes) (st : St) (c : Call) (cs : List Call)
    (h : ∀ s b r, c = Call.createBatchV2 s b → exec cr st c ≠ Except.ok r) :
    vendorCreates cr v st (c :: cs) = vendorCreates cr v (run cr st c).1 cs := by
  cases c with
  | createBatchV2 s b =>
    cases hexec : exec cr st (Call.createBatchV2 s b) with
    | ok r => exact absurd hexec (h s b r rfl)
    | error e => simp [vendorCreates, hexec]
  | assignRole s a r => simp [vendorCreates]
  | approveBatchV2 s b => simp [vendorCreates]
  | certifyBatch s b m => simp [vendorCreates]
  | createBatchL s b => simp [vendorCreates]
  | approveBatchL s b => simp [vendorCreates]
  | getBatchStatusL s b => simp [vendorCreates]

/-- A successful `create_batch_v2` contributes its batch id to its
sender's `vendorCreates`. -/
theorem vendorCreates_cons_create (cr v s b : Bytes) (st : St) (cs : List Call) (r : St × Nat)
    (hexec : exec cr st (Call.createBatchV2 s b) = Except.ok r) :
    vendorCreates cr v st (Call.createBatchV2 s b :: cs) =
      (if s = v then b :: vendorCreates cr v (run cr st (Call.createBatchV2 s b)).1 cs
       else vendorCreates cr v (run cr st (Call.createBatchV2 s b)).1 cs) := by
  simp [vendorCreates, hexec]

/-- Along any trace, `v`'s stored vendor list is obtained from its
initial value by folding the `create_batch_v2` append step over the
batch ids `v` successfully created. -/
theorem vendorVal_trace (cr v : Bytes) : ∀ (cs : List Call) (st : St),
    vendorVal (execTrace cr st cs) v =
      List.foldl appendBar (vendorVal st v) (vendorCreates cr v st cs) := by
  intro cs
  induction cs with
  | nil => exact fun st => rfl
  | cons c cs ih =>
    intro st
    rcases run_shape cr st c with ⟨hst, hnotok⟩ | ⟨s, a', r, hc, _, _, ev, hexec, hrun⟩ |
      ⟨s, b', hc, _, _, nv, ev, hnv, hexec, hrun⟩ | ⟨s, b', hc, _, _, ev, hexec, hrun⟩ |
      ⟨s, b', asa, hc, _, _, ev, hexec, hrun⟩
    · rw [show execTrace cr st (c :: cs) = execTrace cr (run cr st c).1 cs from rfl,
        vendorCreates_cons_of_no_create cr v st c cs hnotok, hst]
      exact ih st
    · subst hc
      have hvv : vendorVal (run cr st (Call.assignRole s a' r)).1 v = vendorVal st v := by
        rw [hrun]
        rw [(views_after_assign st.store ev a' (itob r)).2.2.1 v]
        rfl
      rw [show execTrace cr st (Call.assignRole s a' r :: cs) =
          execTrace cr (run cr st (Call.assignRole s a' r)).1 cs from rfl,
        ih _, hvv,
        vendorCreates_cons_of_no_create cr v st _ cs (fun _ _ _ hcc => by cases hcc)]
    · subst hc
      by_cases hsv : s = v
      · subst hsv
        have hvv : vendorVal (run cr st (Call.createBatchV2 s b')).1 s =
            appendBar (vendorVal st s) b' := by
          rw [hrun]
          rw [(views_after_create st.store ev b' s nv).2.2.1 s, if_pos rfl, hnv]
          cases vendorVal st s <;> rfl
        rw [show execTrace cr st (Call.createBatchV2 s b' :: cs) =
            execTrace cr (run cr st (Call.createBatchV2 s b')).1 cs from rfl,
          ih _, hvv, vendorCreates_cons_create cr s s b' st cs _ hexec, if_pos rfl]
        rfl
      · have hvv : vendorVal (run cr st (Call.createBatchV2 s b')).1 v = vendorVal st v := by
          rw [hrun]
          rw [(views_after_create st.store ev b' s nv).2.2.1 v,
            if_neg (fun h => hsv h.symm)]
          rfl
        rw [show execTrace cr st (Call.createBatchV2 s b' :: cs) =
            execTrace cr (run cr st (Call.createBatchV2 s b')).1 cs from rfl,
          ih _, hvv, vendorCreates_cons_create cr v s b' st cs _ hexec, if_neg hsv]
    · subst hc
      have hvv : vendorVal (run cr st (Call.approveBatchV2 s b')).1 v = vendorVal st v := by
        rw [hrun]
        rw [(views_after_batchput st.store ev b' (itob 1)).2.2.1 v]
        rfl
      rw [show execTrace cr st (Call.approveBatchV2 s b' :: cs) =
          execTrace cr (run cr st (Call.approveBatchV2 s b')).1 cs from rfl,
        ih _, hvv,
        vendorCreates_cons_of_no_create cr v st _ cs (fun _ _ _ hcc => by cases hcc)]
    · subst hc
      have hvv : vendorVal (run cr st (Call.certifyBatch s b' (some asa))).1 v =
          vendorVal st v := by
        rw [hrun]
        rw [(views_after_certify st.store ev b' (itob 2) (itob asa)).2.2.1 v]
        rfl
      rw [show execTrace cr st (Call.certifyBatch s b' (some asa) :: cs) =
          execTrace cr (run cr st (Call.certifyBatch s b' (some asa))).1 cs from rfl,
        ih _, hvv,
        vendorCreates_cons_of_no_create cr v st _ cs (fun _ _ _ hcc => by cases hcc)]

/-- C6: after any sequence of calls from deployment, `get_vendor_batches`
for `v` equals the `|`-joined batch identifiers of `v`'s successful
creates in call order (the empty byte string when there are none);
identifiers created by other vendors never enter `v`'s list. -/
theorem c6_vendor_list_integrity (cr v : Bytes) (cs : List Call) :
    get_vendor_batches v (execTrace cr initSt cs) =
      joinBar (vendorCreates cr v initSt cs) := by
  cases hids : vendorCreates cr v initSt cs with
  | nil =>
    have h := vendorVal_trace cr v cs initSt
    rw [hids] at h
    have h' : vendorVal (execTrace cr initSt cs) v = none := h
    simp [get_vendor_batches, joinBar, boxGet_of_none h']
  | cons x xs =>
    have h := vendorVal_trace cr v cs initSt
    rw [hids] at h
    have h' : vendorVal (execTrace cr initSt cs) v = some (joinBar (x :: xs)) := by
      rw [h]
      exact foldl_appendBar_cons x xs
    simp [get_vendor_batches, boxGet_of_some h']

end ComplianceEngine
